import Mathlib

/-!
Verification of the traffic-control core of the chuscraper repository:
the sliding-window rate limiter and its adaptive variant
(chuscraper/core/limiter.py), the bounded-concurrency gate
(ConcurrencyLimiter in the same file), the local authenticating proxy
relay (chuscraper/core/local_proxy.py), and the bounded same-domain
crawl coordinator (chuscraper/leads/crawler.py, scraper.py).

Each Python class is shallowly embedded as explicit state passing over
executable Lean definitions; asynchronous waiting is modelled by an
explicit time parameter, the asyncio lock by a boolean, and Python
exceptions by an error component in the result.
-/

namespace Chuscraper

/-! ## AdaptiveRateLimiter (core/limiter.py, lines 169-209)

Only the adaptive-rate fields are modelled here; the inherited
sliding-window deque is modelled separately below, since
record_success / record_error touch neither the deque nor the clock. -/

structure ARL where
  max_requests : Nat
  initial_rate : Nat
  min_rate : Nat
  max_rate : Nat
  error_count : Nat
  success_count : Nat
  deriving Repr, DecidableEq

/-- Embeds AdaptiveRateLimiter.__init__: super().__init__(initial_rate, _)
sets max_requests to initial_rate; min_rate = max(1, initial_rate // 4);
max_rate = initial_rate * 2. -/
def ARL.fresh (initial_rate : Nat) : ARL :=
  { max_requests := initial_rate
    initial_rate := initial_rate
    min_rate := max 1 (initial_rate / 4)
    max_rate := initial_rate * 2
    error_count := 0
    success_count := 0 }

/-- Embeds AdaptiveRateLimiter.record_success (lines 184-192). -/
def record_success (s : ARL) : ARL :=
  let s1 : ARL := { s with success_count := s.success_count + 1, error_count := 0 }
  if 10 ≤ s1.success_count ∧ s1.max_requests < s1.max_rate then
    { s1 with max_requests := min (s1.max_requests + 1) s1.max_rate, success_count := 0 }
  else s1

/-- Embeds AdaptiveRateLimiter.record_error (lines 194-202). -/
def record_error (s : ARL) : ARL :=
  let s1 : ARL := { s with error_count := s.error_count + 1, success_count := 0 }
  if 3 ≤ s1.error_count then
    { s1 with max_requests := max (s1.max_requests / 2) s1.min_rate, error_count := 0 }
  else s1

inductive AOp where
  | succ
  | err
  deriving Repr, DecidableEq

/-- Runs a sequence of record_success / record_error calls, head first. -/
def applyOps (s : ARL) : List AOp → ARL
  | [] => s
  | AOp.succ :: rest => applyOps (record_success s) rest
  | AOp.err :: rest => applyOps (record_error s) rest

/-- The configuration bounds (all fields except the mutable counters). -/
lemma record_success_config (s : ARL) :
    (record_success s).min_rate = s.min_rate ∧ (record_success s).max_rate = s.max_rate ∧
    (record_success s).initial_rate = s.initial_rate := by
  simp only [record_success]
  split <;> exact ⟨rfl, rfl, rfl⟩

lemma record_error_config (s : ARL) :
    (record_error s).min_rate = s.min_rate ∧ (record_error s).max_rate = s.max_rate ∧
    (record_error s).initial_rate = s.initial_rate := by
  simp only [record_error]
  split <;> exact ⟨rfl, rfl, rfl⟩

/-- Bounds invariant carried through every adaptive update. -/
def InBounds (s : ARL) : Prop :=
  s.min_rate ≤ s.max_requests ∧ s.max_requests ≤ s.max_rate

lemma inBounds_record_success {s : ARL} (h : InBounds s) : InBounds (record_success s) := by
  obtain ⟨h1, h2⟩ := h
  unfold InBounds
  simp only [record_success]
  split
  · refine ⟨?_, ?_⟩
    · simp only
      omega
    · simp only
      omega
  · exact ⟨h1, h2⟩

lemma inBounds_record_error {s : ARL} (h : InBounds s) : InBounds (record_error s) := by
  obtain ⟨h1, h2⟩ := h
  unfold InBounds
  simp only [record_error]
  split
  · constructor
    · simp only
      omega
    · simp only
      have : s.max_requests / 2 ≤ s.max_requests := Nat.div_le_self _ _
      omega
  · exact ⟨h1, h2⟩

lemma applyOps_config (ops : List AOp) : ∀ s : ARL,
    (applyOps s ops).min_rate = s.min_rate ∧ (applyOps s ops).max_rate = s.max_rate := by
  induction ops with
  | nil => exact fun s => ⟨rfl, rfl⟩
  | cons op rest ih =>
    intro s
    cases op with
    | succ =>
      have hc := record_success_config s
      have := ih (record_success s)
      exact ⟨by rw [applyOps, this.1, hc.1], by rw [applyOps, this.2, hc.2.1]⟩
    | err =>
      have hc := record_error_config s
      have := ih (record_error s)
      exact ⟨by rw [applyOps, this.1, hc.1], by rw [applyOps, this.2, hc.2.1]⟩

lemma inBounds_applyOps (ops : List AOp) : ∀ s : ARL, InBounds s → InBounds (applyOps s ops) := by
  induction ops with
  | nil => exact fun s h => h
  | cons op rest ih =>
    intro s h
    cases op with
    | succ => exact ih _ (inBounds_record_success h)
    | err => exact ih _ (inBounds_record_error h)

/-- C2 counterexample: the claim asserts min_rate = 3 for initial_rate = 10 and
that max_requests never drops below 3; in the code min_rate = max(1, 10 // 4) = 2,
and six consecutive record_error calls drive max_requests down to 2. -/
theorem c2_counterexample :
    (ARL.fresh 10).min_rate = 2 ∧
    (applyOps (ARL.fresh 10) (List.replicate 6 AOp.err)).max_requests = 2 := by
  exact ⟨rfl, rfl⟩

/-- C2 amended: for AdaptiveRateLimiter(initial_rate=10), after exactly 3
consecutive record_error calls max_requests = 5; after a further 10 consecutive
record_success calls max_requests = 6; and under any sequence of
record_success / record_error calls, max_requests stays within
[min_rate, max_rate] = [2, 20] (the code computes min_rate = max(1, 10 // 4) = 2,
not 3 as the claim states). -/
theorem c2_amended :
    (applyOps (ARL.fresh 10) (List.replicate 3 AOp.err)).max_requests = 5 ∧
    (applyOps (applyOps (ARL.fresh 10) (List.replicate 3 AOp.err))
      (List.replicate 10 AOp.succ)).max_requests = 6 ∧
    ∀ ops : List AOp,
      2 ≤ (applyOps (ARL.fresh 10) ops).max_requests ∧
      (applyOps (ARL.fresh 10) ops).max_requests ≤ 20 := by
  refine ⟨rfl, rfl, fun ops => ?_⟩
  have hb : InBounds (applyOps (ARL.fresh 10) ops) :=
    inBounds_applyOps ops (ARL.fresh 10) ⟨by norm_num [ARL.fresh], by norm_num [ARL.fresh]⟩
  have hc := applyOps_config ops (ARL.fresh 10)
  constructor
  · have := hb.1
    rw [hc.1] at this
    simpa [ARL.fresh] using this
  · have := hb.2
    rw [hc.2] at this
    simpa [ARL.fresh] using this

lemma record_error_no_fire {s : ARL} (h : s.error_count + 1 < 3) :
    (record_error s).max_requests = s.max_requests ∧
    (record_error s).error_count = s.error_count + 1 ∧
    (record_error s).success_count = 0 ∧
    (record_error s).min_rate = s.min_rate := by
  simp only [record_error]
  split
  · rename_i hc
    omega
  · exact ⟨rfl, rfl, rfl, rfl⟩

lemma record_error_fire {s : ARL} (h : 3 ≤ s.error_count + 1) :
    (record_error s).max_requests = max (s.max_requests / 2) s.min_rate ∧
    (record_error s).error_count = 0 := by
  simp only [record_error]
  split
  · exact ⟨rfl, rfl⟩
  · rename_i hc
    omega

lemma record_success_no_fire {s : ARL} (h : s.success_count + 1 < 10) :
    (record_success s).max_requests = s.max_requests ∧
    (record_success s).success_count = s.success_count + 1 ∧
    (record_success s).error_count = 0 := by
  simp only [record_success]
  split
  · rename_i hc
    omega
  · exact ⟨rfl, rfl, rfl⟩

lemma applyOps_append (l1 l2 : List AOp) : ∀ s : ARL,
    applyOps s (l1 ++ l2) = applyOps (applyOps s l1) l2 := by
  induction l1 with
  | nil => intro s; rfl
  | cons op rest ih =>
    intro s
    cases op with
    | succ => rw [List.cons_append, applyOps, applyOps, ih]
    | err => rw [List.cons_append, applyOps, applyOps, ih]

lemma applyOps_err_streak (k : Nat) : ∀ s : ARL, s.error_count + k < 3 →
    (applyOps s (List.replicate k AOp.err)).max_requests = s.max_requests ∧
    (applyOps s (List.replicate k AOp.err)).error_count = s.error_count + k ∧
    (applyOps s (List.replicate k AOp.err)).min_rate = s.min_rate := by
  induction k with
  | zero =>
    intro s h
    exact ⟨rfl, rfl, rfl⟩
  | succ k ih =>
    intro s h
    rw [List.replicate_succ, applyOps]
    have hn := record_error_no_fire (s := s) (by omega)
    have hr := ih (record_error s) (by rw [hn.2.1]; omega)
    rw [hr.1, hr.2.1, hr.2.2, hn.1, hn.2.1, hn.2.2.2]
    omega

lemma applyOps_succ_streak (k : Nat) : ∀ s : ARL, s.success_count + k < 10 →
    (applyOps s (List.replicate k AOp.succ)).max_requests = s.max_requests ∧
    (applyOps s (List.replicate k AOp.succ)).success_count = s.success_count + k := by
  induction k with
  | zero =>
    intro s h
    exact ⟨rfl, rfl⟩
  | succ k ih =>
    intro s h
    rw [List.replicate_succ, applyOps]
    have hn := record_success_no_fire (s := s) (by omega)
    have hr := ih (record_success s) (by rw [hn.2.1]; omega)
    rw [hr.1, hr.2, hn.1, hn.2.1]
    omega

/-- C10: record_success resets the error streak to zero while incrementing the
success streak, and record_error resets the success streak to zero; hence the
multiplicative decrease fires exactly at the third uninterrupted record_error
(no change after 2, halving bounded below by min_rate at 3), and fewer than 10
uninterrupted record_success calls never change max_requests. -/
theorem c10_streak_resets :
    ∀ s : ARL,
      (record_success s).error_count = 0 ∧
      (record_error s).success_count = 0 ∧
      (s.error_count = 0 →
        (applyOps s (List.replicate 2 AOp.err)).max_requests = s.max_requests ∧
        (applyOps s (List.replicate 3 AOp.err)).max_requests =
          max (s.max_requests / 2) s.min_rate) ∧
      (s.success_count = 0 → ∀ k : Nat, k < 10 →
        (applyOps s (List.replicate k AOp.succ)).max_requests = s.max_requests) := by
  intro s
  refine ⟨?_, ?_, ?_, ?_⟩
  · simp only [record_success]
    split <;> rfl
  · simp only [record_error]
    split <;> rfl
  · intro h0
    have h2 := applyOps_err_streak 2 s (by omega)
    refine ⟨h2.1, ?_⟩
    have hsplit : List.replicate 3 AOp.err = List.replicate 2 AOp.err ++ [AOp.err] :=
      List.replicate_succ' ..
    rw [hsplit, applyOps_append]
    have hf := record_error_fire (s := applyOps s (List.replicate 2 AOp.err)) (by omega)
    have : applyOps (applyOps s (List.replicate 2 AOp.err)) [AOp.err] =
        record_error (applyOps s (List.replicate 2 AOp.err)) := rfl
    rw [this, hf.1, h2.1, h2.2.2]
  · intro h0 k hk
    exact (applyOps_succ_streak k s (by omega)).1

/-- C10 witness: the hypotheses of c10_streak_resets hold for the freshly
constructed AdaptiveRateLimiter(initial_rate=10). -/
theorem c10_streak_resets_witness :
    ((ARL.fresh 10).error_count = 0 ∧ (ARL.fresh 10).success_count = 0) ∧
    (applyOps (ARL.fresh 10) (List.replicate 3 AOp.err)).max_requests =
      max ((ARL.fresh 10).max_requests / 2) (ARL.fresh 10).min_rate ∧
    (applyOps (ARL.fresh 10) (List.replicate 9 AOp.succ)).max_requests =
      (ARL.fresh 10).max_requests :=
  ⟨⟨rfl, rfl⟩, ((c10_streak_resets (ARL.fresh 10)).2.2.1 rfl).2,
    (c10_streak_resets (ARL.fresh 10)).2.2.2 rfl 9 (by omega)⟩

/-! ## RateLimiter (core/limiter.py, lines 17-72)

Embedding choices: time.time() instants are integers threaded explicitly
(the 0.1-second epsilon of line 51 becomes +1 in scaled units);
asyncio.sleep advances the clock; the asyncio.Lock is a boolean.  The
line `self._lock.acquire()` after the sleep (line 56) creates a
coroutine that is never awaited, so it does not re-acquire the lock;
the model therefore leaves the lock untouched there, and exiting the
outer `async with` block releases an unheld lock, which in asyncio
raises RuntimeError — PyErr.lockNotAcquired below.  The deque of
admission instants is a list; the ghost field history additionally
records every admission ever made (the deque is a pruned suffix of it). -/

inductive PyErr where
  | lockNotAcquired
  | indexError
  | valueError
  | deadlock
  | fuelOut
  deriving Repr, DecidableEq

structure RL where
  max_requests : Nat
  time_window : Int
  requests : List Int
  history : List Int
  deriving Repr, DecidableEq

/-- Embeds RateLimiter.__init__ (lines 26-37). -/
def RL.fresh (mr : Nat) (tw : Int) : RL :=
  { max_requests := mr, time_window := tw, requests := [], history := [] }

/-- Embeds the pruning loop of lines 45-46: pop from the front while the
head instant is older than now - time_window. -/
def pruneReqs (tw now : Int) (rs : List Int) : List Int :=
  rs.dropWhile (fun r => decide (r < now - tw))

structure AcqOut where
  s : RL
  now : Int
  lockHeld : Bool
  err : Option PyErr
  deriving Repr, DecidableEq

/-- Embeds RateLimiter.acquire (lines 39-61) for a single caller, with
fuel bounding the self-recursion of line 58.  The caller enters with the
lock state in lockHeld; each path models the `async with` exit by a
release that fails with lockNotAcquired when the lock is not held. -/
def acquire : Nat → Int → RL → Bool → AcqOut
  | 0, now, s, lockHeld => ⟨s, now, lockHeld, some PyErr.fuelOut⟩
  | fuel + 1, now, s, lockHeld =>
    if lockHeld then
      -- a single caller re-entering `async with self._lock` would block forever
      ⟨s, now, lockHeld, some PyErr.deadlock⟩
    else
      let rs := pruneReqs s.time_window now s.requests
      if s.max_requests ≤ rs.length then
        match rs with
        | [] =>
          -- self.requests[0] on an empty deque raises IndexError; the
          -- `async with` exit releases the held lock while propagating
          ⟨{ s with requests := rs }, now, false, some PyErr.indexError⟩
        | oldest :: _ =>
          let wait := s.time_window - (now - oldest) + 1
          -- line 54 releases the lock, line 55 sleeps, line 56 fails to
          -- re-acquire (missing await), line 58 recurses
          let inner := acquire fuel (now + wait) { s with requests := rs } false
          -- outer `async with` exit: release the lock as the recursive
          -- call left it
          ⟨inner.s, inner.now, false,
            if inner.lockHeld then inner.err else some PyErr.lockNotAcquired⟩
      else
        -- line 61 records the admission instant; `async with` exit
        -- releases the lock normally
        let s2 : RL := { s with requests := rs ++ [now], history := s.history ++ [now] }
        ⟨s2, now, false, none⟩

/-- C1: the claim says acquire never fails, only delays.  In the code a
second back-to-back acquire on RateLimiter(max_requests=1, time_window=60)
takes the wait-and-retry path; the un-awaited self._lock.acquire() leaves
the lock released, so the outer `async with` exit raises RuntimeError
("Lock is not acquired") — while the first, uncontended acquire succeeds. -/
theorem c1_wait_path_raises :
    (acquire 3 0 ((acquire 3 0 (RL.fresh 1 60) false).s) false).err =
      some PyErr.lockNotAcquired ∧
    (acquire 3 0 (RL.fresh 1 60) false).err = none := by
  constructor <;> rfl

/-- A run of successive acquire calls by one caller: the clock starts at
the returned instant of the previous call plus a nonnegative delay. -/
def runAcquires (fuel : Nat) : List Nat → Int → RL → RL × Int
  | [], now, s => (s, now)
  | d :: ds, now, s =>
    let out := acquire fuel now s false
    runAcquires fuel ds (out.now + d) out.s

/-- Number of recorded admission instants inside the closed trailing
interval [a, a + tw]. -/
def countWindow (tw a : Int) (l : List Int) : Nat :=
  (l.filter (fun t => decide (a ≤ t ∧ t ≤ a + tw))).length

/-- Invariant tying the deque to the ghost admission history at clock
value now: the deque is a suffix of the history whose dropped prefix is
entirely older than the trailing window, every admission is in the past,
and every trailing window holds at most max_requests admissions. -/
def WindowInv (now : Int) (s : RL) : Prop :=
  (∃ dropped : List Int, s.history = dropped ++ s.requests ∧
    ∀ t ∈ dropped, t < now - s.time_window) ∧
  (∀ t ∈ s.history, t ≤ now) ∧
  (∀ a : Int, countWindow s.time_window a s.history ≤ s.max_requests)

lemma windowInv_mono {now now2 : Int} {s : RL} (hle : now ≤ now2)
    (h : WindowInv now s) : WindowInv now2 s := by
  obtain ⟨⟨dropped, hd, hb⟩, hpast, hcount⟩ := h
  exact ⟨⟨dropped, hd, fun t ht => by have := hb t ht; omega⟩,
    fun t ht => le_trans (hpast t ht) hle, hcount⟩

lemma windowInv_prune {now : Int} {s : RL} (h : WindowInv now s) :
    WindowInv now { s with requests := pruneReqs s.time_window now s.requests } := by
  obtain ⟨⟨dropped, hd, hb⟩, hpast, hcount⟩ := h
  refine ⟨⟨dropped ++ s.requests.takeWhile (fun r => decide (r < now - s.time_window)),
    ?_, ?_⟩, hpast, hcount⟩
  · show s.history = _ ++ pruneReqs s.time_window now s.requests
    rw [hd, List.append_assoc, pruneReqs, List.takeWhile_append_dropWhile]
  · intro t ht
    rcases List.mem_append.mp ht with h1 | h2
    · exact hb t h1
    · have := List.mem_takeWhile_imp h2
      simpa using this

lemma dropWhile_head_false {p : Int → Bool} :
    ∀ (l : List Int) (x : Int) (xs : List Int), l.dropWhile p = x :: xs → p x = false := by
  intro l
  induction l with
  | nil => intro x xs h; simp [List.dropWhile] at h
  | cons a as ih =>
    intro x xs h
    rw [List.dropWhile_cons] at h
    by_cases hp : p a
    · rw [if_pos hp] at h
      exact ih x xs h
    · rw [if_neg hp] at h
      cases h
      simpa using hp

lemma acquire_windowInv (fuel : Nat) : ∀ (now : Int) (s : RL), WindowInv now s →
    now ≤ (acquire fuel now s false).now ∧
    (acquire fuel now s false).s.max_requests = s.max_requests ∧
    (acquire fuel now s false).s.time_window = s.time_window ∧
    WindowInv (acquire fuel now s false).now (acquire fuel now s false).s := by
  induction fuel with
  | zero => intro now s h; exact ⟨le_refl now, rfl, rfl, h⟩
  | succ fuel ih =>
    intro now s h
    have hprune := windowInv_prune h
    by_cases hfull : s.max_requests ≤ (pruneReqs s.time_window now s.requests).length
    · cases hrs : pruneReqs s.time_window now s.requests with
      | nil =>
        rw [hrs] at hfull
        have heq : acquire (fuel + 1) now s false =
            ⟨{ s with requests := pruneReqs s.time_window now s.requests },
              now, false, some PyErr.indexError⟩ := by
          simp only [acquire, Bool.false_eq_true, if_false, hrs, if_pos hfull]
        rw [heq]
        exact ⟨le_refl now, rfl, rfl, hprune⟩
      | cons oldest rest =>
        have holdest : ¬ (oldest < now - s.time_window) := by
          have := dropWhile_head_false s.requests oldest rest hrs
          simpa using this
        have hwait : 1 ≤ s.time_window - (now - oldest) + 1 := by omega
        rw [hrs] at hfull
        have heq : acquire (fuel + 1) now s false =
            (fun inner : AcqOut => (⟨inner.s, inner.now, false,
              if inner.lockHeld then inner.err else some PyErr.lockNotAcquired⟩ : AcqOut))
            (acquire fuel (now + (s.time_window - (now - oldest) + 1))
              { s with requests := pruneReqs s.time_window now s.requests } false) := by
          simp only [acquire, Bool.false_eq_true, if_false, hrs, if_pos hfull]
        have hmono : WindowInv (now + (s.time_window - (now - oldest) + 1))
            { s with requests := pruneReqs s.time_window now s.requests } :=
          windowInv_mono (by omega) hprune
        have hih := ih (now + (s.time_window - (now - oldest) + 1))
          { s with requests := pruneReqs s.time_window now s.requests } hmono
        rw [heq]
        refine ⟨?_, hih.2.1, hih.2.2.1, hih.2.2.2⟩
        dsimp only
        have h1 := hih.1
        omega
    · have heq : acquire (fuel + 1) now s false =
          ⟨{ s with requests := pruneReqs s.time_window now s.requests ++ [now], history := s.history ++ [now] }, now, false, none⟩ := by
        simp only [acquire, Bool.false_eq_true, if_false, if_neg hfull]
      rw [heq]
      obtain ⟨⟨dropped, hd, hb⟩, hpast, hcount⟩ := hprune
      dsimp only at hd hb hpast hcount
      refine ⟨le_refl now, rfl, rfl, ⟨dropped, ?_, ?_⟩, ?_, ?_⟩
      · show s.history ++ [now] = dropped ++ (pruneReqs s.time_window now s.requests ++ [now])
        rw [hd, List.append_assoc]
      · intro t ht
        dsimp only
        exact hb t ht
      · intro t ht
        dsimp only at ht
        rcases List.mem_append.mp ht with h1 | h2
        · have := hpast t h1
          dsimp only
          omega
        · simp only [List.mem_singleton] at h2
          dsimp only
          omega
      · intro a
        show countWindow s.time_window a (s.history ++ [now]) ≤ s.max_requests
        rw [countWindow, List.filter_append, List.length_append]
        by_cases hnow : a ≤ now ∧ now ≤ a + s.time_window
        · have hlast : (List.filter (fun t => decide (a ≤ t ∧ t ≤ a + s.time_window)) [now]).length = 1 := by
            simp [hnow.1, hnow.2]
          rw [hlast]
          have hdropped : List.filter (fun t => decide (a ≤ t ∧ t ≤ a + s.time_window)) dropped = [] := by
            rw [List.filter_eq_nil_iff]
            intro t ht
            have := hb t ht
            simp only [decide_eq_true_eq, not_and]
            intro hat
            omega
          have hhist : (List.filter (fun t => decide (a ≤ t ∧ t ≤ a + s.time_window)) s.history).length ≤
              (pruneReqs s.time_window now s.requests).length := by
            rw [hd, List.filter_append, hdropped, List.nil_append]
            exact List.length_filter_le _ _
          omega
        · have hlast : (List.filter (fun t => decide (a ≤ t ∧ t ≤ a + s.time_window)) [now]).length = 0 := by
            simp only [List.filter_singleton]
            rw [decide_eq_false hnow]
            rfl
          rw [hlast]
          have := hcount a
          rw [countWindow] at this
          omega

lemma runAcquires_windowInv (fuel : Nat) (ds : List Nat) : ∀ (now : Int) (s : RL),
    WindowInv now s →
    (runAcquires fuel ds now s).1.max_requests = s.max_requests ∧
    (runAcquires fuel ds now s).1.time_window = s.time_window ∧
    WindowInv (runAcquires fuel ds now s).2 (runAcquires fuel ds now s).1 := by
  induction ds with
  | nil => intro now s h; exact ⟨rfl, rfl, h⟩
  | cons d rest ih =>
    intro now s h
    have ha := acquire_windowInv fuel now s h
    have hmono : WindowInv ((acquire fuel now s false).now + (d : Int))
        (acquire fuel now s false).s :=
      windowInv_mono (by omega) ha.2.2.2
    have := ih ((acquire fuel now s false).now + (d : Int)) (acquire fuel now s false).s hmono
    rw [runAcquires]
    exact ⟨this.1.trans ha.2.1, this.2.1.trans ha.2.2.1, this.2.2⟩

/-- C6: for any RateLimiter, under any single-caller sequence of acquire
calls separated by arbitrary nonnegative delays, the number of admission
instants ever recorded inside any trailing interval of length time_window
never exceeds max_requests.  (The second half of the claim — that the
wait-and-retry path then returns normally — fails with the RuntimeError of
c1_wait_path_raises, but the admission bound itself always holds, because
the admission instant is recorded before the faulty lock release runs.) -/
theorem c6_window_invariant :
    ∀ (fuel : Nat) (delays : List Nat) (mr : Nat) (tw a : Int),
      countWindow tw a (runAcquires fuel delays 0 (RL.fresh mr tw)).1.history ≤ mr := by
  intro fuel delays mr tw a
  have h0 : WindowInv 0 (RL.fresh mr tw) := by
    refine ⟨⟨[], rfl, by intro t ht; simp at ht⟩, by intro t ht; simp [RL.fresh] at ht, ?_⟩
    intro a2
    simp [countWindow, RL.fresh]
  have := runAcquires_windowInv fuel delays 0 (RL.fresh mr tw) h0
  have hcount := this.2.2.2.2 a
  rw [this.2.1] at hcount
  rw [this.1] at hcount
  exact hcount

/-! ## ConcurrencyLimiter (core/limiter.py, lines 75-110)

Interleaving model for M scoped operations sharing one limiter under the
asyncio single-threaded scheduler.  A task acquires the semaphore on
entry (blocking while no permit is free) and then increments
active_count; on every exit — the `async with` statement runs __aexit__
on normal and exceptional completion alike — it releases the permit and
decrements active_count.  In asyncio the internal `async with self._lock`
sections never suspend (the lock is only ever taken around a synchronous
counter update, so its fast path applies), hence the permit operation
and its counter update form one atomic step; blocking can occur only at
semaphore acquisition, which is where the model allows interleaving. -/

inductive TaskPhase where
  | pending
  | inside
  | done
  deriving Repr, DecidableEq

structure CL where
  permits : Nat
  active_count : Int
  tasks : List TaskPhase
  deriving Repr, DecidableEq

/-- A limiter ConcurrencyLimiter(max_concurrent=n) shared by m tasks that
have not yet entered. -/
def CL.start (n m : Nat) : CL :=
  { permits := n, active_count := 0, tasks := List.replicate m TaskPhase.pending }

def countInside (ts : List TaskPhase) : Nat :=
  (ts.filter (fun t => decide (t = TaskPhase.inside))).length

/-- One scheduler step: a pending task whose semaphore acquisition
succeeds runs __aenter__ (permit taken, counter incremented), or a task
inside the scoped block completes — normally or by raising — and runs
__aexit__ (permit released, counter decremented). -/
inductive CLStep : CL → CL → Prop
  | enter (s : CL) (i : Nat) (hi : s.tasks.get? i = some TaskPhase.pending)
      (hp : 0 < s.permits) :
      CLStep s ⟨s.permits - 1, s.active_count + 1, s.tasks.set i TaskPhase.inside⟩
  | leave (s : CL) (i : Nat) (hi : s.tasks.get? i = some TaskPhase.inside) :
      CLStep s ⟨s.permits + 1, s.active_count - 1, s.tasks.set i TaskPhase.done⟩

inductive CLReach (n m : Nat) : CL → Prop
  | start : CLReach n m (CL.start n m)
  | step (s s2 : CL) : CLReach n m s → CLStep s s2 → CLReach n m s2

def CLInv (n m : Nat) (s : CL) : Prop :=
  s.permits + countInside s.tasks = n ∧
  s.active_count = (countInside s.tasks : Int) ∧
  s.tasks.length = m

lemma countInside_cons (a : TaskPhase) (as : List TaskPhase) :
    countInside (a :: as) = (if a = TaskPhase.inside then 1 else 0) + countInside as := by
  by_cases ha : a = TaskPhase.inside <;> simp [countInside, List.filter_cons, ha]
  omega

lemma countInside_set (ts : List TaskPhase) : ∀ (i : Nat) (x y : TaskPhase),
    ts.get? i = some y →
    countInside (ts.set i x) + (if y = TaskPhase.inside then 1 else 0) =
      countInside ts + (if x = TaskPhase.inside then 1 else 0) := by
  induction ts with
  | nil => intro i x y h; simp at h
  | cons a as ih =>
    intro i x y h
    cases i with
    | zero =>
      simp only [List.get?] at h
      injection h with h2
      subst h2
      simp only [List.set]
      rw [countInside_cons, countInside_cons]
      by_cases hx : x = TaskPhase.inside <;> by_cases ha : a = TaskPhase.inside <;>
        simp [hx, ha] <;> omega
    | succ i =>
      simp only [List.get?] at h
      have ihh := ih i x y h
      simp only [List.set]
      rw [countInside_cons, countInside_cons]
      by_cases hy : y = TaskPhase.inside <;> by_cases hx : x = TaskPhase.inside <;>
        by_cases ha : a = TaskPhase.inside <;> simp [hy, hx, ha] at ihh ⊢ <;> omega

lemma countInside_pos (ts : List TaskPhase) (i : Nat)
    (h : ts.get? i = some TaskPhase.inside) : 0 < countInside ts := by
  have hmem : TaskPhase.inside ∈ ts := List.get?_mem h
  have : TaskPhase.inside ∈ ts.filter (fun t => decide (t = TaskPhase.inside)) :=
    List.mem_filter.mpr ⟨hmem, by simp⟩
  have := List.length_pos.mpr (List.ne_nil_of_mem this)
  simpa [countInside] using this

lemma clStep_inv {n m : Nat} {s s2 : CL} (hs : CLStep s s2) (h : CLInv n m s) :
    CLInv n m s2 := by
  obtain ⟨h1, h2, h3⟩ := h
  cases hs with
  | enter i hi hp =>
    have hc := countInside_set s.tasks i TaskPhase.inside TaskPhase.pending hi
    rw [if_pos rfl, if_neg (by simp : ¬ (TaskPhase.pending = TaskPhase.inside))] at hc
    refine ⟨by dsimp only; omega, by dsimp only; rw [h2]; omega, ?_⟩
    dsimp only
    rw [List.length_set]
    exact h3
  | leave i hi =>
    have hc := countInside_set s.tasks i TaskPhase.done TaskPhase.inside hi
    rw [if_pos rfl, if_neg (by simp : ¬ (TaskPhase.done = TaskPhase.inside))] at hc
    have hpos := countInside_pos s.tasks i hi
    refine ⟨by dsimp only; omega, by dsimp only; rw [h2]; omega, ?_⟩
    dsimp only
    rw [List.length_set]
    exact h3

lemma clReach_inv {n m : Nat} {s : CL} (h : CLReach n m s) : CLInv n m s := by
  induction h with
  | start =>
    refine ⟨?_, ?_, ?_⟩
    · simp [CL.start, countInside, List.filter_eq_nil_iff]
    · simp [CL.start, countInside, List.filter_eq_nil_iff]
    · simp [CL.start]
  | step s s2 hr hs ih => exact clStep_inv hs ih

/-- C4: in every state reachable by any interleaving of M scoped
operations through ConcurrencyLimiter(max_concurrent=N), active_count
equals the number of tasks currently inside the scoped block, stays in
[0, N], and is exactly 0 once every task has exited — including tasks
that left the block by raising, since __aexit__ runs on every exit path. -/
theorem c4_concurrency_bounds :
    ∀ (n m : Nat) (s : CL), CLReach n m s →
      (0 ≤ s.active_count ∧ s.active_count ≤ (n : Int)) ∧
      s.active_count = (countInside s.tasks : Int) ∧
      ((∀ t ∈ s.tasks, t = TaskPhase.done) → s.active_count = 0) := by
  intro n m s h
  obtain ⟨h1, h2, h3⟩ := clReach_inv h
  refine ⟨⟨by rw [h2]; positivity, by rw [h2]; exact_mod_cast by omega⟩, h2, ?_⟩
  intro hall
  rw [h2]
  have : countInside s.tasks = 0 := by
    simp only [countInside, List.length_eq_zero, List.filter_eq_nil_iff]
    intro t ht
    have := hall t ht
    simp [this]
  rw [this]
  rfl

/-- C4 witness: a concrete reachable state (two tasks, capacity one, one
task entered and exited) discharging the reachability hypothesis. -/
theorem c4_concurrency_bounds_witness :
    ((0 : Int) ≤ (CL.mk 1 0 [TaskPhase.done, TaskPhase.pending]).active_count ∧
      (CL.mk 1 0 [TaskPhase.done, TaskPhase.pending]).active_count ≤ (1 : Int)) ∧
    (CL.mk 1 0 [TaskPhase.done, TaskPhase.pending]).active_count =
      (countInside (CL.mk 1 0 [TaskPhase.done, TaskPhase.pending]).tasks : Int) ∧
    ((∀ t ∈ (CL.mk 1 0 [TaskPhase.done, TaskPhase.pending]).tasks, t = TaskPhase.done) →
      (CL.mk 1 0 [TaskPhase.done, TaskPhase.pending]).active_count = 0) := by
  have h1 : CLStep (CL.start 1 2) (CL.mk 0 1 [TaskPhase.inside, TaskPhase.pending]) := by
    have := CLStep.enter (CL.start 1 2) 0 (by rfl) (by decide)
    simpa [CL.start] using this
  have h2 : CLStep (CL.mk 0 1 [TaskPhase.inside, TaskPhase.pending])
      (CL.mk 1 0 [TaskPhase.done, TaskPhase.pending]) := by
    have := CLStep.leave (CL.mk 0 1 [TaskPhase.inside, TaskPhase.pending]) 0 (by rfl)
    simpa using this
  exact c4_concurrency_bounds 1 2 _
    (CLReach.step _ _ (CLReach.step _ _ CLReach.start h1) h2)

/-! ## DomainCrawler and LeadScraper (leads/crawler.py, leads/scraper.py)

The external collaborators — browser fetch, BeautifulSoup parsing,
contact extraction — are abstracted into oracles: for each URL the
oracle says whether the whole crawl task raised an exception escaping
the task (captured by `asyncio.gather(..., return_exceptions=True)`),
or yields the scrape outcome (an optional error message; None means
success) together with the raw list of same-domain links that
_extract_links would return for that page. -/

structure PageResult where
  url : String
  success : Bool
  error : Option String
  deriving Repr, DecidableEq

/-- Embeds LeadScraper.scrape_page (scraper.py lines 63-120): everything
after the rate-limiter acquire runs inside try/except, so a fetch or
parse failure is converted into a failed result dict and never raised. -/
def scrape_page (fetch : String → Except String Unit) (url : String) : PageResult :=
  match fetch url with
  | Except.ok _ => { url := url, success := true, error := none }
  | Except.error e => { url := url, success := false, error := some e }

inductive Outcome where
  | crash (msg : String)
  | page (err : Option String) (links : List String)

structure CrawlState where
  visited : List String
  to_visit : List String
  results : List PageResult

/-- Embeds the visited-marking loop of crawler.py lines 83-88: each batch
URL not yet visited is added to visited and gets a task; returns the new
visited set and the tasked URLs in batch order. -/
def markVisited (visited : List String) : List String → List String × List String
  | [] => (visited, [])
  | u :: us =>
    if u ∈ visited then markVisited visited us
    else
      let r := markVisited (visited ++ [u]) us
      (r.1, u :: r.2)

/-- Embeds the enqueue loop of crawler.py lines 101-104: a discovered URL
is appended to to_visit only if it is in neither visited nor to_visit and
the page budget len(visited) + len(to_visit) < max_pages still has room. -/
def enqueue (maxPages : Nat) (visited : List String) (tv : List String)
    (newUrls : List String) : List String :=
  newUrls.foldl (fun acc u =>
    if u ∉ visited ∧ u ∉ acc ∧ visited.length + acc.length < maxPages
    then acc ++ [u] else acc) tv

/-- Embeds the batch-result loop of crawler.py lines 93-104: results are
processed in task order; an exception result is skipped, otherwise the
scrape result is appended and the page links (empty unless the scrape
succeeded, mirroring the guard in _scrape_and_discover) are enqueued. -/
def processResults (oracle : String → Outcome) (maxPages : Nat) (visited : List String) :
    List String → List String → List PageResult → List String × List PageResult
  | [], tv, res => (tv, res)
  | u :: us, tv, res =>
    match oracle u with
    | Outcome.crash _ => processResults oracle maxPages visited us tv res
    | Outcome.page err links =>
      let r : PageResult := { url := u, success := err.isNone, error := err }
      let links2 := if err.isNone then links else []
      processResults oracle maxPages visited us (enqueue maxPages visited tv links2) (res ++ [r])

/-- One iteration of the while loop of crawler.py lines 75-104. -/
def crawlStep (oracle : String → Outcome) (maxPages maxConc : Nat)
    (s : CrawlState) : CrawlState :=
  let bs := min maxConc s.to_visit.length
  let batch := s.to_visit.take bs
  let rest := s.to_visit.drop bs
  let mv := markVisited s.visited batch
  let pr := processResults oracle maxPages mv.1 mv.2 rest s.results
  { visited := mv.1, to_visit := pr.1, results := pr.2 }

/-- The crawl loop with fuel (the Python loop can run forever when
max_concurrent = 0, so iterations are bounded explicitly). -/
def crawlLoop (oracle : String → Outcome) (maxPages maxConc : Nat) :
    Nat → CrawlState → CrawlState
  | 0, s => s
  | fuel + 1, s =>
    if s.to_visit ≠ [] ∧ s.visited.length < maxPages then
      crawlLoop oracle maxPages maxConc fuel (crawlStep oracle maxPages maxConc s)
    else s

/-- Embeds the initialisation of crawl (crawler.py lines 62-64). -/
def crawlStart (startUrl : String) : CrawlState :=
  { visited := [], to_visit := [startUrl], results := [] }

/-- The frontier invariant of the claim: visited and the queue are
duplicate-free, disjoint, and together never exceed the page budget. -/
def CrawlInv (maxPages : Nat) (s : CrawlState) : Prop :=
  s.visited.Nodup ∧ s.to_visit.Nodup ∧ (∀ u ∈ s.to_visit, u ∉ s.visited) ∧
  s.visited.length + s.to_visit.length ≤ maxPages

lemma markVisited_spec (batch : List String) : ∀ visited : List String,
    (markVisited visited batch).1 = visited ++ (markVisited visited batch).2 ∧
    (markVisited visited batch).2.length ≤ batch.length ∧
    (visited.Nodup → (markVisited visited batch).1.Nodup) := by
  induction batch with
  | nil => intro visited; simp [markVisited]
  | cons u us ih =>
    intro visited
    by_cases hu : u ∈ visited
    · have h := ih visited
      simp only [markVisited, if_pos hu]
      exact ⟨h.1, Nat.le_succ_of_le h.2.1, h.2.2⟩
    · have h := ih (visited ++ [u])
      simp only [markVisited, if_neg hu]
      refine ⟨?_, ?_, ?_⟩
      · dsimp only
        rw [h.1, List.append_assoc]
        rfl
      · dsimp only
        simpa using Nat.succ_le_succ h.2.1
      · intro hnd
        refine h.2.2 ?_
        simpa [List.nodup_append] using ⟨hnd, hu⟩

lemma markVisited_sub (batch : List String) : ∀ (visited : List String) (u : String),
    u ∈ (markVisited visited batch).2 → u ∈ batch := by
  induction batch with
  | nil => intro visited u h; simp [markVisited] at h
  | cons v vs ih =>
    intro visited u h
    by_cases hv : v ∈ visited
    · simp only [markVisited, if_pos hv] at h
      exact List.mem_cons_of_mem v (ih visited u h)
    · simp only [markVisited, if_neg hv] at h
      rcases List.mem_cons.mp h with h1 | h2
      · exact h1 ▸ List.mem_cons_self v vs
      · exact List.mem_cons_of_mem v (ih (visited ++ [v]) u h2)

lemma enqueue_inv (maxPages : Nat) (visited : List String) (newUrls : List String) :
    ∀ tv : List String, tv.Nodup → (∀ u ∈ tv, u ∉ visited) →
      visited.length + tv.length ≤ maxPages →
      (enqueue maxPages visited tv newUrls).Nodup ∧
      (∀ u ∈ enqueue maxPages visited tv newUrls, u ∉ visited) ∧
      visited.length + (enqueue maxPages visited tv newUrls).length ≤ maxPages := by
  induction newUrls with
  | nil => intro tv h1 h2 h3; exact ⟨h1, h2, h3⟩
  | cons u us ih =>
    intro tv h1 h2 h3
    rw [enqueue, List.foldl_cons]
    by_cases hc : u ∉ visited ∧ u ∉ tv ∧ visited.length + tv.length < maxPages
    · rw [if_pos hc]
      refine ih (tv ++ [u]) ?_ ?_ ?_
      · simpa [List.nodup_append] using ⟨h1, hc.2.1⟩
      · intro x hx
        rcases List.mem_append.mp hx with hx1 | hx2
        · exact h2 x hx1
        · simp only [List.mem_singleton] at hx2
          exact hx2 ▸ hc.1
      · rw [List.length_append, List.length_singleton]
        omega
    · rw [if_neg hc]
      exact ih tv h1 h2 h3

lemma processResults_inv (oracle : String → Outcome) (maxPages : Nat)
    (visited : List String) (tasked : List String) :
    ∀ (tv : List String) (res : List PageResult),
      tv.Nodup → (∀ u ∈ tv, u ∉ visited) → visited.length + tv.length ≤ maxPages →
      (processResults oracle maxPages visited tasked tv res).1.Nodup ∧
      (∀ u ∈ (processResults oracle maxPages visited tasked tv res).1, u ∉ visited) ∧
      visited.length + (processResults oracle maxPages visited tasked tv res).1.length ≤
        maxPages := by
  induction tasked with
  | nil => intro tv res h1 h2 h3; exact ⟨h1, h2, h3⟩
  | cons u us ih =>
    intro tv res h1 h2 h3
    rw [processResults]
    cases oracle u with
    | crash msg => exact ih tv res h1 h2 h3
    | page err links =>
      have he := enqueue_inv maxPages visited (if err.isNone then links else []) tv h1 h2 h3
      exact ih _ _ he.1 he.2.1 he.2.2

lemma crawlStep_inv (oracle : String → Outcome) (maxPages maxConc : Nat) (s : CrawlState)
    (h : CrawlInv maxPages s) : CrawlInv maxPages (crawlStep oracle maxPages maxConc s) := by
  obtain ⟨hvn, htn, hdisj, hlen⟩ := h
  rw [crawlStep]
  set bs := min maxConc s.to_visit.length with hbs
  have hmv := markVisited_spec (s.to_visit.take bs) s.visited
  have htd : s.to_visit.take bs ++ s.to_visit.drop bs = s.to_visit := List.take_append_drop ..
  have hsplit : (s.to_visit.take bs).Nodup ∧ (s.to_visit.drop bs).Nodup ∧
      ∀ u ∈ s.to_visit.take bs, u ∉ s.to_visit.drop bs := by
    have := htd ▸ htn
    rw [List.nodup_append] at this
    exact ⟨this.1, this.2.1, fun u hu hv => this.2.2 hu hv⟩
  have hv2 : (markVisited s.visited (s.to_visit.take bs)).1.Nodup := hmv.2.2 hvn
  have hrest1 : ∀ u ∈ s.to_visit.drop bs,
      u ∉ (markVisited s.visited (s.to_visit.take bs)).1 := by
    intro u hu hmem
    rw [hmv.1] at hmem
    rcases List.mem_append.mp hmem with h1 | h2
    · exact hdisj u (List.mem_of_mem_drop hu) h1
    · exact hsplit.2.2 u (markVisited_sub _ _ _ h2) hu
  have hlen2 : (markVisited s.visited (s.to_visit.take bs)).1.length +
      (s.to_visit.drop bs).length ≤ maxPages := by
    have e1 : (markVisited s.visited (s.to_visit.take bs)).1.length =
        s.visited.length + (markVisited s.visited (s.to_visit.take bs)).2.length := by
      rw [hmv.1, List.length_append]
    have e2 : (s.to_visit.take bs).length + (s.to_visit.drop bs).length =
        s.to_visit.length := by
      rw [← List.length_append, htd]
    have := hmv.2.1
    omega
  have hp := processResults_inv oracle maxPages
    (markVisited s.visited (s.to_visit.take bs)).1
    (markVisited s.visited (s.to_visit.take bs)).2
    (s.to_visit.drop bs) s.results hsplit.2.1 hrest1 hlen2
  exact ⟨hv2, hp.1, hp.2.1, hp.2.2⟩

lemma crawlLoop_inv (oracle : String → Outcome) (maxPages maxConc : Nat) :
    ∀ (fuel : Nat) (s : CrawlState), CrawlInv maxPages s →
      CrawlInv maxPages (crawlLoop oracle maxPages maxConc fuel s) := by
  intro fuel
  induction fuel with
  | zero => intro s h; exact h
  | succ fuel ih =>
    intro s h
    rw [crawlLoop]
    split
    · exact ih _ (crawlStep_inv oracle maxPages maxConc s h)
    · exact h

/-- C3: for any crawl with max_pages at least 1, every state reached by
the crawl loop — and more generally every iterate of the loop body —
keeps the frontier duplicate-free and disjoint from the visited set and
satisfies len(visited) + len(to_visit) ≤ max_pages, hence
len(visited) ≤ max_pages at every point; a URL is enqueued only when it
is in neither visited nor to_visit (the Nodup/disjointness invariant is
exactly the preservation of that guard). -/
theorem c3_crawl_invariants :
    ∀ (oracle : String → Outcome) (maxPages maxConc : Nat) (startUrl : String),
      1 ≤ maxPages →
      (∀ k : Nat,
        CrawlInv maxPages ((crawlStep oracle maxPages maxConc)^[k] (crawlStart startUrl)) ∧
        ((crawlStep oracle maxPages maxConc)^[k] (crawlStart startUrl)).visited.length ≤
          maxPages) ∧
      (∀ fuel : Nat,
        CrawlInv maxPages (crawlLoop oracle maxPages maxConc fuel (crawlStart startUrl)) ∧
        (crawlLoop oracle maxPages maxConc fuel (crawlStart startUrl)).visited.length ≤
          maxPages) := by
  intro oracle maxPages maxConc startUrl hmp
  have hstart : CrawlInv maxPages (crawlStart startUrl) := by
    refine ⟨List.nodup_nil, List.nodup_singleton _, ?_, ?_⟩
    · intro u hu
      simp [crawlStart]
    · simp [crawlStart]
      omega
  constructor
  · intro k
    have hinv : CrawlInv maxPages ((crawlStep oracle maxPages maxConc)^[k] (crawlStart startUrl)) := by
      induction k with
      | zero => exact hstart
      | succ k ihk =>
        rw [Function.iterate_succ_apply']
        exact crawlStep_inv oracle maxPages maxConc _ ihk
    exact ⟨hinv, by have := hinv.2.2.2; omega⟩
  · intro fuel
    have hinv := crawlLoop_inv oracle maxPages maxConc fuel _ hstart
    exact ⟨hinv, by have := hinv.2.2.2; omega⟩

/-- A concrete oracle for the C3 witness: page a links to b and c,
everything else is a leaf. -/
def sampleOracle : String → Outcome := fun u =>
  if u = "a" then Outcome.page none ["b", "c"] else Outcome.page none []

/-- C3 witness: the budget hypothesis discharged at max_pages = 2 for a
concrete two-page crawl. -/
theorem c3_crawl_invariants_witness :
    1 ≤ 2 ∧
    CrawlInv 2 ((crawlStep sampleOracle 2 1)^[1] (crawlStart "a")) ∧
    (crawlLoop sampleOracle 2 1 5 (crawlStart "a")).visited.length ≤ 2 :=
  ⟨by omega, ((c3_crawl_invariants sampleOracle 2 1 "a" (by omega)).1 1).1,
    ((c3_crawl_invariants sampleOracle 2 1 "a" (by omega)).2 5).2⟩

lemma processResults_results (oracle : String → Outcome) (maxPages : Nat)
    (visited : List String) (tasked : List String) :
    ∀ (tv : List String) (res : List PageResult),
      (processResults oracle maxPages visited tasked tv res).2 =
        res ++ tasked.filterMap (fun u =>
          match oracle u with
          | Outcome.crash _ => none
          | Outcome.page err _ => some { url := u, success := err.isNone, error := err }) := by
  induction tasked with
  | nil => intro tv res; simp [processResults]
  | cons u us ih =>
    intro tv res
    rw [processResults]
    cases ho : oracle u with
    | crash msg =>
      rw [ih tv res, List.filterMap_cons]
      simp [ho]
    | page err links =>
      rw [ih _ _, List.filterMap_cons]
      simp [ho]

/-- C7: a fetch or parse failure on one page is converted by scrape_page
into a PageResult with success = false carrying the error message and is
never propagated; and in a crawl batch the result list is exactly one
PageResult per tasked URL whose task did not crash, each with
success ⟺ no error — so one failing page neither aborts the batch nor
removes the results of the other pages, and crash results are skipped
without stopping processing. -/
theorem c7_failure_isolation :
    (∀ (fetch : String → Except String Unit) (url e : String),
      fetch url = Except.error e →
        scrape_page fetch url = { url := url, success := false, error := some e }) ∧
    (∀ (oracle : String → Outcome) (maxPages : Nat)
        (visited tasked tv : List String) (res : List PageResult),
      (processResults oracle maxPages visited tasked tv res).2 =
        res ++ tasked.filterMap (fun u =>
          match oracle u with
          | Outcome.crash _ => none
          | Outcome.page err _ => some { url := u, success := err.isNone, error := err })) := by
  constructor
  · intro fetch url e h
    rw [scrape_page, h]
  · intro oracle maxPages visited tasked tv res
    exact processResults_results oracle maxPages visited tasked tv res

/-- A fetch oracle that always fails, for the C7 witness. -/
def failingFetch : String → Except String Unit := fun _ => Except.error "boom"

/-- C7 witness: the failing-fetch hypothesis discharged at a concrete URL. -/
theorem c7_failure_isolation_witness :
    failingFetch "http://x" = Except.error "boom" ∧
    scrape_page failingFetch "http://x" =
      { url := "http://x", success := false, error := some "boom" } :=
  ⟨rfl, c7_failure_isolation.1 failingFetch "http://x" "boom" rfl⟩

/-! ## DomainCrawler._extract_links (crawler.py, lines 138-166)

BeautifulSoup parsing is external: the anchors' href values are the
input list.  urljoin and the netloc extraction of urlparse are Python
standard-library collaborators and enter the embedding as function
parameters (the repository's _get_domain, lines 168-172, returns
urlparse(url).netloc directly). -/

/-- Embeds absolute_url.split('#')[0] (line 152): the prefix before the
first fragment marker. -/
def stripFragment (u : String) : String :=
  String.mk (u.toList.takeWhile (fun c => decide (c ≠ '#')))

/-- Embeds absolute_url.startswith(('http://', 'https://')) (line 160). -/
def startsWithHttp (u : String) : Bool :=
  u.startsWith "http://" || u.startsWith "https://"

/-- The body of the anchor loop of _extract_links (lines 145-161):
resolve the href against the current URL, strip the fragment, skip
foreign domains when same_domain_only is set, and keep http(s) URLs. -/
def extractStep (urljoin : String → String → String) (get_domain : String → String)
    (same_domain_only : Bool) (current_url base_domain : String)
    (links : List String) (href : String) : List String :=
  let absolute_url := stripFragment (urljoin current_url href)
  if same_domain_only && decide (get_domain absolute_url ≠ base_domain) then links
  else if startsWithHttp absolute_url then links ++ [absolute_url]
  else links

/-- Embeds _extract_links (lines 138-166) over the anchors of the page. -/
def extract_links (urljoin : String → String → String) (get_domain : String → String)
    (same_domain_only : Bool) (hrefs : List String)
    (current_url base_domain : String) : List String :=
  hrefs.foldl (extractStep urljoin get_domain same_domain_only current_url base_domain) []

/-- The filter of the claim: a resolved URL is kept iff (when filtering
is on) its domain equals the seed domain, and it is http(s). -/
def keepLink (get_domain : String → String) (same_domain_only : Bool)
    (base_domain : String) (u : String) : Bool :=
  (!same_domain_only || decide (get_domain u = base_domain)) && startsWithHttp u

lemma extractStep_eq (urljoin : String → String → String) (get_domain : String → String)
    (same_domain_only : Bool) (current_url base_domain : String)
    (links : List String) (href : String) :
    extractStep urljoin get_domain same_domain_only current_url base_domain links href =
      links ++ (if keepLink get_domain same_domain_only base_domain
          (stripFragment (urljoin current_url href)) = true
        then [stripFragment (urljoin current_url href)] else []) := by
  simp only [extractStep, keepLink, ne_eq, decide_not]
  rcases Bool.eq_false_or_eq_true
      (decide (get_domain (stripFragment (urljoin current_url href)) = base_domain)) with
    hb2 | hb2 <;>
  cases same_domain_only <;>
  rcases Bool.eq_false_or_eq_true
      (startsWithHttp (stripFragment (urljoin current_url href))) with hb3 | hb3 <;>
  simp only [hb2, hb3, Bool.not_false, Bool.not_true, Bool.and_false, Bool.and_true,
    Bool.false_and, Bool.true_and, Bool.false_or, Bool.true_or, Bool.or_false,
    Bool.or_true] <;>
  simp

lemma extract_links_foldl (urljoin : String → String → String)
    (get_domain : String → String) (same_domain_only : Bool)
    (current_url base_domain : String) : ∀ (hrefs acc : List String),
    hrefs.foldl (extractStep urljoin get_domain same_domain_only current_url base_domain) acc =
      acc ++ ((hrefs.map (fun h => stripFragment (urljoin current_url h))).filter
        (keepLink get_domain same_domain_only base_domain)) := by
  intro hrefs
  induction hrefs with
  | nil => intro acc; simp
  | cons h hs ih =>
    intro acc
    rw [List.foldl_cons, extractStep_eq, ih, List.map_cons, List.filter_cons]
    by_cases hk : keepLink get_domain same_domain_only base_domain
        (stripFragment (urljoin current_url h)) = true
    · rw [if_pos hk, if_pos hk, List.append_assoc]
      rfl
    · rw [if_neg hk, if_neg hk, List.append_nil]

/-- C8: link discovery returns exactly the href values resolved against
the current page URL, with fragments stripped, filtered to those whose
network-location (as extracted by the get_domain collaborator) equals
the seed domain by plain string equality whenever same-domain filtering
is on, and whose resolved form starts with http:// or https://. -/
theorem c8_link_discovery :
    ∀ (urljoin : String → String → String) (get_domain : String → String)
      (same_domain_only : Bool) (hrefs : List String) (current_url base_domain : String),
      extract_links urljoin get_domain same_domain_only hrefs current_url base_domain =
        (hrefs.map (fun h => stripFragment (urljoin current_url h))).filter
          (fun u => (!same_domain_only || decide (get_domain u = base_domain)) &&
            startsWithHttp u) := by
  intro urljoin get_domain same_domain_only hrefs current_url base_domain
  rw [extract_links, extract_links_foldl]
  rfl

/-! ## LocalAuthProxy (core/local_proxy.py)

The header block travels as a string (handle_client decodes the buffered
bytes before rewriting, line 76); base64.b64encode is implemented over
the UTF-8 code units, which for the ASCII credentials involved equal the
character codes.  str.splitlines is modelled for the \x0d\x0a, \x0d and
\x0a separators (the exotic unicode separators Python also recognises
cannot occur in proxy headers).  urlparse is modelled for scheme,
netloc, userinfo, hostname and port (without IPv6 bracket handling);
accessing .port raises ValueError when the port component is not a
valid in-range integer, exactly as in urllib. -/

def strBytes (s : String) : List Nat := s.toList.map Char.toNat

def b64char (n : Nat) : Char :=
  if n < 26 then Char.ofNat (65 + n)
  else if n < 52 then Char.ofNat (97 + (n - 26))
  else if n < 62 then Char.ofNat (48 + (n - 52))
  else if n = 62 then '+' else '/'

def b64chars : List Nat → List Char
  | [] => []
  | [a] => [b64char (a / 4), b64char (a % 4 * 16), '=', '=']
  | [a, b] => [b64char (a / 4), b64char (a % 4 * 16 + b / 16), b64char (b % 16 * 4), '=']
  | a :: b :: c :: rest =>
    b64char (a / 4) :: b64char (a % 4 * 16 + b / 16) :: b64char (b % 16 * 4 + c / 64) ::
      b64char (c % 64) :: b64chars rest

def b64encode (bs : List Nat) : String := String.mk (b64chars bs)

def splitlinesAux : List Char → List Char → List String
  | [], acc => if acc.isEmpty then [] else [String.mk acc]
  | '\x0d' :: '\x0a' :: rest, acc => String.mk acc :: splitlinesAux rest []
  | '\x0d' :: rest, acc => String.mk acc :: splitlinesAux rest []
  | '\x0a' :: rest, acc => String.mk acc :: splitlinesAux rest []
  | c :: rest, acc => splitlinesAux rest (acc ++ [c])

/-- Models str.splitlines (used at line 77). -/
def splitlines (s : String) : List String := splitlinesAux s.toList []

def crlf : String := "\x0d\x0a"

/-- Models "\x5cr\x5cn".join(lines) (line 86). -/
def joinCRLF (lines : List String) : String := String.intercalate crlf lines

/-- Embeds lines 78-80: `if lines and not lines[-1]: lines.pop()` —
exactly one trailing empty line is removed. -/
def popTrailingBlank (lines : List String) : List String :=
  match lines.getLast? with
  | some last => if last = "" then lines.dropLast else lines
  | none => lines

/-- Embeds the header rewrite of handle_client lines 72-88: with an auth
header configured, split the block into lines, drop the trailing blank
line, append the Proxy-Authorization line and two empty strings, and
join with CRLF; otherwise the block is forwarded unchanged. -/
def injectHeader (auth_header : Option String) (header_data : String) : String :=
  match auth_header with
  | none => header_data
  | some ah =>
    joinCRLF (popTrailingBlank (splitlines header_data) ++
      ["Proxy-Authorization: " ++ ah, "", ""])

/-- Embeds the buffering loop of handle_client lines 65-70: readline
results are accumulated until a blank line (CRLF or LF) or end of
stream (empty read) is seen; the terminator itself is kept. -/
def readHeaderBlock : List String → String
  | [] => ""
  | l :: rest =>
    l ++ (if l = crlf ∨ l = "\x0a" ∨ l = "" then "" else readHeaderBlock rest)

/-- A well-formed header block as a browser sends it: the given
(nonempty, separator-free) lines each followed by CRLF, then the blank
line terminating the block. -/
def blockOf : List String → String
  | [] => crlf
  | l :: rest => l ++ crlf ++ blockOf rest

/-! ### urlparse model and LocalAuthProxy.__init__ (lines 22-34) -/

def splitAtFirst (ch : Char) : List Char → Option (List Char × List Char)
  | [] => none
  | c :: rest =>
    if c = ch then some ([], rest)
    else
      match splitAtFirst ch rest with
      | some p => some (c :: p.1, p.2)
      | none => none

def splitAtLast (ch : Char) (l : List Char) : Option (List Char × List Char) :=
  match splitAtFirst ch l.reverse with
  | some p => some (p.2.reverse, p.1.reverse)
  | none => none

def isSchemeChar (c : Char) : Bool :=
  c.isAlphanum || c = '+' || c = '-' || c = '.'

def lowerStr (cs : List Char) : List Char := cs.map Char.toLower

/-- Scheme recognition of urlparse: the text before the first colon is a
scheme when it starts with a letter and uses only scheme characters. -/
def parseScheme (cs : List Char) : List Char × List Char :=
  match splitAtFirst ':' cs with
  | some (pre, rest) =>
    match pre with
    | [] => ([], cs)
    | p :: ps =>
      if p.isAlpha && (p :: ps).all isSchemeChar then (lowerStr (p :: ps), rest)
      else ([], cs)
  | none => ([], cs)

/-- The netloc is present only after a leading double slash and extends
to the next slash, query or fragment delimiter. -/
def parseNetloc (cs : List Char) : List Char :=
  match cs with
  | '/' :: '/' :: rest =>
    rest.takeWhile (fun c => decide (c ≠ '/' ∧ c ≠ '?' ∧ c ≠ '#'))
  | _ => []

/-- Userinfo is everything before the last at sign of the netloc. -/
def userinfoHostport (netloc : List Char) : Option (List Char) × List Char :=
  match splitAtLast '@' netloc with
  | some p => (some p.1, p.2)
  | none => (none, netloc)

/-- username.partition of the first colon; no colon means no password. -/
def usernamePassword : Option (List Char) → Option String × Option String
  | none => (none, none)
  | some u =>
    match splitAtFirst ':' u with
    | some p => (some (String.mk p.1), some (String.mk p.2))
    | none => (some (String.mk u), none)

/-- hostname (lowercased, None when empty) and the raw port text after
the first colon of the host part. -/
def hostPort (hp : List Char) : Option String × Option String :=
  match splitAtFirst ':' hp with
  | some p =>
    (if p.1.isEmpty then none else some (String.mk (lowerStr p.1)),
     if p.2.isEmpty then none else some (String.mk p.2))
  | none => (if hp.isEmpty then none else some (String.mk (lowerStr hp)), none)

def digitsToNat (cs : List Char) : Nat :=
  cs.foldl (fun n c => n * 10 + (c.toNat - 48)) 0

/-- The .port accessor of a parse result: ValueError when the port text
is not a valid integer in [0, 65535]. -/
def portOf : Option String → Except PyErr (Option Nat)
  | none => Except.ok none
  | some ps =>
    if ps.toList ≠ [] ∧ ps.toList.all Char.isDigit then
      if digitsToNat ps.toList ≤ 65535 then Except.ok (some (digitsToNat ps.toList))
      else Except.error PyErr.valueError
    else Except.error PyErr.valueError

/-- Embeds lines 26-31: the auth header exists only when both username
and password are present and nonempty (Python truthiness). -/
def authHeaderOf (username password : Option String) : Option String :=
  match username, password with
  | some u, some p =>
    if u ≠ "" ∧ p ≠ "" then
      some ("Basic " ++ b64encode (strBytes (u ++ ":" ++ p)))
    else none
  | _, _ => none

structure ProxyConfig where
  upstream_host : Option String
  upstream_port : Nat
  auth_header : Option String
  deriving Repr, DecidableEq

/-- Embeds LocalAuthProxy.__init__ (lines 22-34): urlparse the proxy URL,
take hostname, `port or 80` (so a missing — or zero — port becomes 80),
and build the Basic auth header when credentials are present.  The only
failure is the ValueError that urlparse's .port accessor raises on an
invalid port component; no other validation exists. -/
def mkLocalAuthProxy (url : String) : Except PyErr ProxyConfig :=
  let rest := (parseScheme url.toList).2
  let netloc := parseNetloc rest
  let uh := userinfoHostport netloc
  let up := usernamePassword uh.1
  let hp := hostPort uh.2
  match portOf hp.2 with
  | Except.error e => Except.error e
  | Except.ok popt =>
    let port := match popt with
      | none => 80
      | some p => if p = 0 then 80 else p
    Except.ok { upstream_host := hp.1, upstream_port := port,
                auth_header := authHeaderOf up.1 up.2 }

lemma splitlinesAux_clean : ∀ (l : List Char),
    (∀ c ∈ l, c ≠ '\x0d' ∧ c ≠ '\x0a') → ∀ (acc tail : List Char),
    splitlinesAux (l ++ '\x0d' :: '\x0a' :: tail) acc =
      String.mk (acc ++ l) :: splitlinesAux tail [] := by
  intro l
  induction l with
  | nil =>
    intro h acc tail
    simp [splitlinesAux]
  | cons c cs ih =>
    intro h acc tail
    have hc := h c (List.mem_cons_self c cs)
    rw [List.cons_append]
    have hstep : splitlinesAux (c :: (cs ++ '\x0d' :: '\x0a' :: tail)) acc =
        splitlinesAux (cs ++ '\x0d' :: '\x0a' :: tail) (acc ++ [c]) := by
      simp [splitlinesAux, hc.1, hc.2]
    rw [hstep, ih (fun x hx => h x (List.mem_cons_of_mem c hx)) (acc ++ [c]) tail]
    simp

lemma string_mk_data (s : String) : String.mk s.toList = s := rfl

lemma splitlines_blockOf : ∀ ls : List String,
    (∀ l ∈ ls, ∀ c ∈ l.toList, c ≠ '\x0d' ∧ c ≠ '\x0a') →
    splitlines (blockOf ls) = ls ++ [""] := by
  intro ls
  induction ls with
  | nil => intro h; rfl
  | cons l rest ih =>
    intro h
    have hdata : (blockOf (l :: rest)).toList =
        l.toList ++ '\x0d' :: '\x0a' :: (blockOf rest).toList := by
      show ((l ++ crlf) ++ blockOf rest).toList = _
      have he : ((l ++ crlf) ++ blockOf rest).toList =
          (l.toList ++ crlf.toList) ++ (blockOf rest).toList := rfl
      rw [he, List.append_assoc]
      rfl
    rw [splitlines, hdata,
      splitlinesAux_clean l.toList (h l (List.mem_cons_self l rest)) [] _,
      List.nil_append, string_mk_data]
    have := ih (fun x hx => h x (List.mem_cons_of_mem l hx))
    rw [splitlines] at this
    rw [this]
    rfl

lemma popTrailingBlank_concat (ls : List String) : popTrailingBlank (ls ++ [""]) = ls := by
  simp [popTrailingBlank, List.getLast?_concat, List.dropLast_concat]

/-- C5: LocalAuthProxy credentials u, p produce exactly the header value
Basic dTpw; for every well-formed buffered header block the forwarded
block is the client's lines with the trailing blank line dropped, the
Proxy-Authorization line appended and a blank-line terminator re-added;
and with no credentials configured the block is forwarded unchanged. -/
theorem c5_header_injection :
    authHeaderOf (some "u") (some "p") = some "Basic dTpw" ∧
    injectHeader (some "Basic dTpw") "CONNECT example.com:443 HTTP/1.1\x0d\x0a\x0d\x0a" =
      "CONNECT example.com:443 HTTP/1.1\x0d\x0aProxy-Authorization: Basic dTpw\x0d\x0a\x0d\x0a" ∧
    (∀ block : String, injectHeader none block = block) ∧
    (∀ (ls : List String) (ah : String),
      (∀ l ∈ ls, ∀ c ∈ l.toList, c ≠ '\x0d' ∧ c ≠ '\x0a') →
      injectHeader (some ah) (blockOf ls) =
        joinCRLF (ls ++ ["Proxy-Authorization: " ++ ah, "", ""])) := by
  refine ⟨rfl, rfl, fun block => rfl, ?_⟩
  intro ls ah h
  show joinCRLF (popTrailingBlank (splitlines (blockOf ls)) ++ _) = _
  rw [splitlines_blockOf ls h, popTrailingBlank_concat]

/-- C5 witness: a concrete CONNECT block discharging the well-formedness
hypothesis of the header-rewrite equation. -/
theorem c5_header_injection_witness :
    (∀ l ∈ ["CONNECT example.com:443 HTTP/1.1"], ∀ c ∈ l.toList,
      c ≠ '\x0d' ∧ c ≠ '\x0a') ∧
    injectHeader (some "Basic dTpw") (blockOf ["CONNECT example.com:443 HTTP/1.1"]) =
      joinCRLF (["CONNECT example.com:443 HTTP/1.1"] ++
        ["Proxy-Authorization: Basic dTpw", "", ""]) :=
  ⟨by decide, c5_header_injection.2.2.2 ["CONNECT example.com:443 HTTP/1.1"]
    "Basic dTpw" (by decide)⟩

/-- C9 counterexample: the claim says construction from a malformed proxy
URL, or one missing required credentials, fails fatally with a
ConfigError; in the code LocalAuthProxy("garbage") constructs
successfully with upstream_host None and default port 80, and a URL
without credentials constructs successfully with no auth header — no
validation and no ConfigError exist. -/
theorem c9_counterexample :
    mkLocalAuthProxy "garbage" =
      Except.ok { upstream_host := none, upstream_port := 80, auth_header := none } ∧
    mkLocalAuthProxy "http://host:8080" =
      Except.ok { upstream_host := some "host", upstream_port := 8080, auth_header := none } :=
  ⟨rfl, rfl⟩

lemma portOf_error : ∀ (p : Option String) (e : PyErr),
    portOf p = Except.error e → e = PyErr.valueError := by
  intro p e h
  cases p with
  | none => simp [portOf] at h
  | some ps =>
    rw [portOf] at h
    split_ifs at h
    · injection h with h2
      exact h2.symm
    · injection h with h2
      exact h2.symm

/-- C9 amended: LocalAuthProxy.__init__ performs no validation — every
URL either constructs a proxy object (malformed URLs yield
upstream_host None, port 80 and no auth header; missing credentials
yield auth_header None) or raises the ValueError coming from urlparse's
.port accessor on an invalid port component; with full credentials the
expected configuration is produced. -/
theorem c9_amended :
    (∀ url : String, (∃ cfg, mkLocalAuthProxy url = Except.ok cfg) ∨
      mkLocalAuthProxy url = Except.error PyErr.valueError) ∧
    mkLocalAuthProxy "http://host:bad" = Except.error PyErr.valueError ∧
    mkLocalAuthProxy "http://u:p@host:8080" =
      Except.ok { upstream_host := some "host", upstream_port := 8080, auth_header := some "Basic dTpw" } := by
  refine ⟨?_, rfl, rfl⟩
  intro url
  simp only [mkLocalAuthProxy]
  cases hp : portOf (hostPort (userinfoHostport (parseNetloc
      (parseScheme url.toList).2)).2).2 with
  | ok popt =>
    left
    exact ⟨_, rfl⟩
  | error e =>
    right
    rw [portOf_error _ e hp]

end Chuscraper
